import Mathlib

/-
Verification of the Uptodown app downloader pipeline.

The development shallowly embeds the Python source:
- the resilient requester safe_request (retry loop with exponential backoff),
- the download routine download_from_app_page (skip-if-present, streamed save,
  partial-file cleanup),
- the container normalizer extract_xapk,
- the per-identifier unit of work download_worker,
- the two-stage orchestration of main (download pool, then decompile pool,
  merged into a package-keyed result map).

Filesystem state is modelled as an association list from paths to sizes;
network responses, streamed bodies and external-tool results are oracles
passed in as explicit arguments; thread-pool completion order is an
arbitrary permutation parameter.
-/

namespace Uptodown

/-- Filesystem model: a list of (path, size) pairs, at most one binding per
path being the intended discipline (operations below maintain it). -/
abbrev FS := List (String × Nat)

/-- Path lookup: size of the file at a path, if present (models
Path.exists plus stat().st_size). -/
def fsLookup : FS → String → Option Nat
  | [], _ => none
  | e :: t, p => if e.1 = p then some e.2 else fsLookup t p

/-- Remove a path (models Path.unlink). -/
def fsErase : FS → String → FS
  | [], _ => []
  | e :: t, p => if e.1 = p then fsErase t p else e :: fsErase t p

/-- Create or overwrite a file of the given size (models open(.., "wb") plus
writing the body). -/
def fsWrite (fs : FS) (p : String) (sz : Nat) : FS :=
  fsErase fs p ++ [(p, sz)]

/-- Remove every file strictly below a directory (models shutil.rmtree). -/
def fsRemoveTree : FS → String → FS
  | [], _ => []
  | e :: t, dir =>
    if e.1.startsWith (dir ++ "/") then fsRemoveTree t dir
    else e :: fsRemoveTree t dir

lemma fsLookup_nil (p : String) : fsLookup ([] : FS) p = none := rfl

lemma fsLookup_erase_self (fs : FS) (p : String) :
    fsLookup (fsErase fs p) p = none := by
  induction fs with
  | nil => rfl
  | cons e t ih =>
    by_cases h : e.1 = p
    · simpa [fsErase, h] using ih
    · simpa [fsErase, fsLookup, h] using ih

lemma fsLookup_erase_ne (fs : FS) (p q : String) (h : q ≠ p) :
    fsLookup (fsErase fs p) q = fsLookup fs q := by
  induction fs with
  | nil => rfl
  | cons e t ih =>
    by_cases h1 : e.1 = p
    · simpa [fsErase, fsLookup, h1, Ne.symm h] using ih
    · by_cases h2 : e.1 = q
      · simp [fsErase, fsLookup, h1, h2, h]
      · simpa [fsErase, fsLookup, h1, h2] using ih

lemma fsLookup_append (a b : FS) (p : String) :
    fsLookup (a ++ b) p =
      match fsLookup a p with
      | some v => some v
      | none => fsLookup b p := by
  induction a with
  | nil => simp [fsLookup]
  | cons e t ih =>
    by_cases h : e.1 = p
    · simp [fsLookup, h]
    · simpa [fsLookup, h] using ih

lemma fsLookup_write_self (fs : FS) (p : String) (sz : Nat) :
    fsLookup (fsWrite fs p sz) p = some sz := by
  rw [fsWrite, fsLookup_append, fsLookup_erase_self]
  simp [fsLookup]

lemma fsLookup_write_ne (fs : FS) (p q : String) (sz : Nat) (h : q ≠ p) :
    fsLookup (fsWrite fs p sz) q = fsLookup fs q := by
  rw [fsWrite, fsLookup_append, fsLookup_erase_ne fs p q h]
  cases hv : fsLookup fs q with
  | none => simp [fsLookup, Ne.symm h]
  | some v => rfl

lemma fsLookup_removeTree_none (fs : FS) (dir q : String)
    (h : fsLookup fs q = none) : fsLookup (fsRemoveTree fs dir) q = none := by
  induction fs with
  | nil => rfl
  | cons e t ih =>
    by_cases h1 : e.1 = q
    · simp [fsLookup, h1] at h
    · have ht : fsLookup t q = none := by simpa [fsLookup, h1] using h
      by_cases h2 : e.1.startsWith (dir ++ "/")
      · simpa [fsRemoveTree, h2] using ih ht
      · simpa [fsRemoveTree, fsLookup, h1, h2] using ih ht

lemma fsLookup_write_isSome (fs : FS) (p q : String) (sz : Nat)
    (h : fsLookup fs q ≠ none) : fsLookup (fsWrite fs p sz) q ≠ none := by
  by_cases hpq : q = p
  · rw [hpq, fsLookup_write_self]; simp
  · rw [fsLookup_write_ne fs p q sz hpq]; exact h

lemma fsLookup_erase_of_none (fs : FS) (p q : String)
    (h : fsLookup fs q = none) : fsLookup (fsErase fs p) q = none := by
  by_cases hpq : q = p
  · rw [hpq]; exact fsLookup_erase_self fs p
  · rw [fsLookup_erase_ne fs p q hpq]; exact h

/-- Result of one call to the resilient requester.  The Python function
returns either a response object or None; attempts made and total time
slept are recorded as execution observables. -/
structure ReqResult where
  response : Option Nat
  attempts : Nat
  slept : Nat
deriving DecidableEq, Repr

/-- Loop body of safe_request (src/unnamed/part_000 lines 62-79).  attempt is
the 1-based attempt counter, slept the accumulated backoff sleep, remaining
the number of loop iterations left (retries - attempt + 1).  On failure with
attempt < retries the worker sleeps backoff ^ (attempt - 1) and retries; on
the final attempt it gives up and returns None. -/
def safe_request_go (req : Nat → Except String Nat) (backoff : Nat)
    (attempt slept remaining : Nat) : ReqResult :=
  match remaining with
  | 0 => ⟨none, attempt - 1, slept⟩
  | r + 1 =>
    match req attempt with
    | .ok v => ⟨some v, attempt, slept⟩
    | .error _ =>
      if r = 0 then ⟨none, attempt, slept⟩
      else safe_request_go req backoff (attempt + 1)
        (slept + backoff ^ (attempt - 1)) r

/-- safe_request (src/unnamed/part_000 lines 62-79): up to retries attempts,
exponential backoff between failed attempts. The per-attempt behaviour of
session.get/post plus raise_for_status is the oracle req. -/
def safe_request (req : Nat → Except String Nat)
    (retries : Nat := 5) (backoff : Nat := 2) : ReqResult :=
  safe_request_go req backoff 1 0 retries

lemma safe_request_go_all_fail (req : Nat → Except String Nat) (backoff : Nat)
    (hfail : ∀ k, ∃ e, req k = Except.error e) :
    ∀ rem a s, 1 ≤ rem →
      (safe_request_go req backoff a s rem).response = none ∧
      (safe_request_go req backoff a s rem).attempts = a + rem - 1 := by
  intro rem
  induction rem with
  | zero => intro a s h; omega
  | succ r ih =>
    intro a s _
    obtain ⟨e, he⟩ := hfail a
    by_cases hr : r = 0
    · subst hr
      simp [safe_request_go, he]
    · have h1 : 1 ≤ r := Nat.one_le_iff_ne_zero.mpr hr
      have := ih (a + 1) (s + backoff ^ (a - 1)) h1
      constructor
      · simp only [safe_request_go, he, hr, if_false]
        exact this.1
      · simp only [safe_request_go, he, hr, if_false]
        rw [this.2]
        omega

lemma safe_request_go_succeeds (req : Nat → Except String Nat) (backoff v : Nat) :
    ∀ d a s rem, 1 ≤ a → d + 1 ≤ rem →
      (∀ k, a ≤ k → k < a + d → ∃ e, req k = Except.error e) →
      req (a + d) = Except.ok v →
      safe_request_go req backoff a s rem =
        ⟨some v, a + d,
          s + Finset.sum (Finset.range d) (fun j => backoff ^ (a - 1 + j))⟩ := by
  intro d
  induction d with
  | zero =>
    intro a s rem ha hrem _ hok
    obtain ⟨r, rfl⟩ : ∃ r, rem = r + 1 := ⟨rem - 1, by omega⟩
    simp only [Nat.add_zero] at hok
    simp [safe_request_go, hok]
  | succ d ih =>
    intro a s rem ha hrem hfail hok
    obtain ⟨r, rfl⟩ : ∃ r, rem = r + 1 := ⟨rem - 1, by omega⟩
    obtain ⟨e, he⟩ := hfail a (Nat.le_refl a) (by omega)
    have hr : r ≠ 0 := by omega
    have hrec := ih (a + 1) (s + backoff ^ (a - 1)) r (by omega) (by omega)
      (fun k hk1 hk2 => hfail k (by omega) (by omega))
      (by
        have : a + 1 + d = a + (d + 1) := by omega
        rw [this]; exact hok)
    simp only [safe_request_go, he, hr, if_false]
    rw [hrec]
    have hattempt : a + 1 + d = a + (d + 1) := by omega
    have hsum : s + backoff ^ (a - 1) +
        Finset.sum (Finset.range d) (fun j => backoff ^ (a + 1 - 1 + j)) =
        s + Finset.sum (Finset.range (d + 1)) (fun j => backoff ^ (a - 1 + j)) := by
      rw [Finset.sum_range_succ' (fun j => backoff ^ (a - 1 + j)) d]
      have h1 : ∀ j, a + 1 - 1 + j = a - 1 + (j + 1) := by omega
      have h2 : Finset.sum (Finset.range d) (fun j => backoff ^ (a + 1 - 1 + j)) =
          Finset.sum (Finset.range d) (fun j => backoff ^ (a - 1 + (j + 1))) :=
        Finset.sum_congr rfl (fun j _ => by rw [h1 j])
      rw [h2]
      have h3 : a - 1 + 0 = a - 1 := by omega
      rw [h3]
      ring
    rw [hattempt, hsum]

/-- Parsed content of an identifier's Uptodown download page: the File type
table row, the Package Name table row, and the download button's data-url
attribute, each possibly absent. -/
structure Page where
  file_type : Option String
  pkg_name : Option String
  data_url : Option String
deriving DecidableEq, Repr

/-- Outcome of streaming a download body to disk: either the whole body was
written (final file size), or an exception interrupted the write after some
bytes had been written. -/
inductive WriteOutcome where
  | complete (sz : Nat)
  | failPartial (sz : Nat)
deriving DecidableEq, Repr

/-- Substring containment on character lists. -/
def charsContains : List Char → List Char → Bool
  | [], pat => pat.isEmpty
  | c :: rest, pat => pat.isPrefixOf (c :: rest) || charsContains rest pat

/-- The Python test is the substring check: "xapk" in file_type. -/
def hasXapk (s : String) : Bool := charsContains s.data "xapk".data

/-- Extension chosen by download_from_app_page: "xapk" when the File type
row exists and mentions xapk, else "apk" (src/unnamed/part_000 lines 189-191;
an absent or empty file type is falsy in Python, hence "apk"). -/
def pageExt (pg : Page) : String :=
  if (pg.file_type.map hasXapk).getD false then "xapk" else "apk"

/-- Canonical destination path outdir/pkg_name.ext; when the Package Name
row is absent the code falls back to the host part of the app page URL
(src/unnamed/part_000 lines 167-176, 194). -/
def destPath (pg : Page) (host outdir : String) : String :=
  outdir ++ "/" ++ pg.pkg_name.getD host ++ "." ++ pageExt pg

/-- The dw.uptodown.net body-download URL (src/unnamed/part_000 line 193). -/
def finalUrl (pg : Page) (host du : String) : String :=
  "https://dw.uptodown.net/dwn/" ++ du ++ "/uptodown-" ++
    pg.pkg_name.getD host ++ "." ++ pageExt pg

/-- Result of download_from_app_page: the (pkg_name, saved_path, ext) triple
returned by the Python function, the filesystem after the call, and the
network targets the call requested, in order. -/
structure DlOutcome where
  pkg : Option String
  saved : Option String
  ext : Option String
  fs : FS
  requests : List String
deriving DecidableEq, Repr

/-- download_from_app_page (src/unnamed/part_000 lines 151-220).
page is the parse of the (downloadPage) response, none when safe_request
exhausted its retries; body is the streamed body request's outcome, none
when that safe_request failed.  The download page request is always issued
first; the skip-if-present check (lines 194-197) runs only after the page
has been fetched and parsed, and short-circuits the body request. -/
def download_from_app_page (page : Option Page) (host : String)
    (body : Option WriteOutcome) (app_page outdir : String) (fs : FS) :
    DlOutcome :=
  let dlpage := app_page ++ "/download"
  match page with
  | none => ⟨none, none, none, fs, [dlpage]⟩
  | some pg =>
    let pkg := pg.pkg_name.getD host
    match pg.data_url with
    | none => ⟨some pkg, none, none, fs, [dlpage]⟩
    | some du =>
      let ext := pageExt pg
      let out := destPath pg host outdir
      if 0 < (fsLookup fs out).getD 0 then
        ⟨some pkg, some out, some ext, fs, [dlpage]⟩
      else
        match body with
        | none =>
          ⟨some pkg, none, some ext, fs, [dlpage, finalUrl pg host du]⟩
        | some (.complete sz) =>
          ⟨some pkg, some out, some ext, fsWrite fs out sz,
            [dlpage, finalUrl pg host du]⟩
        | some (.failPartial sz) =>
          ⟨some pkg, none, some ext, fsErase (fsWrite fs out sz) out,
            [dlpage, finalUrl pg host du]⟩

/-- Content of a saved multi-part container as seen by zipfile: either it
cannot be opened, or it is an archive whose entries (relative path, size)
are listed in the archive's own order. -/
inductive Container where
  | corrupt
  | archive (entries : List (String × Nat))
deriving DecidableEq, Repr

/-- The rglob("*.apk") name test: the path ends with ".apk". -/
def isApkName (s : String) : Bool :=
  ".apk".data.reverse.isPrefixOf s.data.reverse

/-- Path.stem: final path component without its last extension. -/
def fileStem (p : String) : String :=
  let name := (p.splitOn "/").getLastD ""
  let parts := name.splitOn "."
  if parts.length ≤ 1 then name else String.intercalate "." parts.dropLast

/-- The scoped staging subdirectory outdir/stem_xapk_extracted used by
extract_xapk (src/unnamed/part_000 line 225). -/
def stagingDir (xapk_path outdir : String) : String :=
  outdir ++ "/" ++ fileStem xapk_path ++ "_xapk_extracted"

/-- extract_xapk (src/unnamed/part_000 lines 222-239): extract the archive
into the staging subdirectory, walk the extracted tree and return the first
entry matching *.apk, or (None, tempdir) when no entry matches, or
(None, None) when the container cannot be opened.  The extracted tree is
materialized in the archive's entry order, and the rglob walk is modelled
as visiting it in that order. -/
def extract_xapk (c : Container) (xapk_path outdir : String) (fs : FS) :
    Option String × Option String × FS :=
  let tempdir := stagingDir xapk_path outdir
  match c with
  | .corrupt => (none, none, fs)
  | .archive entries =>
    let fs2 := entries.foldl
      (fun acc e => fsWrite acc (tempdir ++ "/" ++ e.1) e.2) fs
    match entries.find? (fun e => isApkName e.1) with
    | some e => (some (tempdir ++ "/" ++ e.1), some tempdir, fs2)
    | none => (none, some tempdir, fs2)

/-- Per-identifier record built by download_worker and consumed by the
report (the info dict of src/unnamed/part_000 lines 280-287); keys absent
from a dict are modelled as none / empty string. -/
structure Info where
  package : String
  downloaded : Bool
  file_type : Option String
  apk_path : Option String
  manifest_path : Option String
  note : String
  temp_extract_dir : Option String
deriving DecidableEq, Repr

/-- The freshly initialised info dict for one package. -/
def blankInfo (pkg : String) : Info :=
  { package := pkg, downloaded := false, file_type := none, apk_path := none,
    manifest_path := none, note := "", temp_extract_dir := none }

/-- Inputs a single download_worker run consumes from its collaborators:
the discover_uptodown_app_page result, the parsed download page, the host
fallback for the package name, the streamed body outcome, and the content
of the saved container (relevant only for the xapk path). -/
structure WorkerEnv where
  app_page : Option String
  page : Option Page
  host : String
  body : Option WriteOutcome
  container : Container

/-- Continuation of download_worker once download_from_app_page has
returned r (src/unnamed/part_000 lines 294-325). -/
def worker_after_download (pkg : String) (container : Container)
    (outdir : String) (r : DlOutcome) : Info × FS :=
  match r.saved with
  | none => ({ blankInfo pkg with note := "Download failed" }, r.fs)
  | some saved =>
    if r.ext = some "xapk" then
      match extract_xapk container saved outdir r.fs with
      | (none, tempdir, fs2) =>
        let fs3 := fsErase fs2 saved
        let fs4 := match tempdir with
          | some td => fsRemoveTree fs3 td
          | none => fs3
        ({ blankInfo pkg with
            downloaded := true
            file_type := r.ext
            note := "XAPK extracted but no inner APK" }, fs4)
      | (some ia, tempdir, fs2) =>
        ({ blankInfo pkg with
            downloaded := true
            file_type := r.ext
            apk_path := some ia
            temp_extract_dir := tempdir }, fsErase fs2 saved)
    else
      ({ blankInfo pkg with
          downloaded := true
          file_type := r.ext
          apk_path := some saved }, r.fs)

/-- download_worker (src/unnamed/part_000 lines 279-325): the per-identifier
unit of work of the fetch stage.  Failures of discovery and download are
turned into an info record with a note; for an xapk the worker extracts the
inner apk and then deletes the original container file itself, whether or
not an inner apk was found (lines 305-321). -/
def download_worker (pkg : String) (env : WorkerEnv) (outdir : String)
    (fs : FS) : Info × FS :=
  match env.app_page with
  | none => ({ blankInfo pkg with note := "No uptodown app page found" }, fs)
  | some ap =>
    worker_after_download pkg env.container outdir
      (download_from_app_page env.page env.host env.body ap outdir fs)

lemma worker_after_download_package (pkg : String) (container : Container)
    (outdir : String) (r : DlOutcome) :
    (worker_after_download pkg container outdir r).1.package = pkg := by
  unfold worker_after_download
  split
  · rfl
  · split
    · split <;> rfl
    · rfl

lemma download_worker_package (pkg : String) (env : WorkerEnv)
    (outdir : String) (fs : FS) :
    (download_worker pkg env outdir fs).1.package = pkg := by
  unfold download_worker
  split
  · rfl
  · exact worker_after_download_package _ _ _ _

lemma worker_after_download_manifest_none (pkg : String)
    (container : Container) (outdir : String) (r : DlOutcome) :
    (worker_after_download pkg container outdir r).1.manifest_path = none := by
  unfold worker_after_download
  split
  · rfl
  · split
    · split <;> rfl
    · rfl

lemma download_worker_manifest_none (pkg : String) (env : WorkerEnv)
    (outdir : String) (fs : FS) :
    (download_worker pkg env outdir fs).1.manifest_path = none := by
  unfold download_worker
  split
  · rfl
  · exact worker_after_download_manifest_none _ _ _ _

/-- What one stage-1 future yields for a package: the worker's info dict,
or the exception its fut.result() re-raises in main. -/
inductive WorkerRes where
  | ok (i : Info)
  | exc (msg : String)
deriving DecidableEq

/-- What one stage-2 future yields for a package: the result of
decompile_and_extract_manifest (a manifest path or None), or the exception
its fut.result() re-raises. -/
inductive DecompRes where
  | ok (m : Option String)
  | exc (msg : String)
deriving DecidableEq

/-- extract_android_packages_from_yeswehack collects package ids into a set
(src/unnamed/part_000 lines 81-105); modelled as deduplication of the raw
occurrence list.  The sort applied by the source affects order only, which
the orchestration treats as arbitrary anyway. -/
def extract_packages (raw : List String) : List String := raw.dedup

/-- The entry main appends for a stage-1 future (src/unnamed/part_000 lines
447-454): the worker's info on success, or a fresh failure record carrying
the exception text. -/
def stage1Info (wres : String → WorkerRes) (p : String) : Info :=
  match wres p with
  | .ok i => i
  | .exc m => { blankInfo p with note := "exception: " ++ m }

/-- main's submission test for the decompile stage (line 462):
info.get("downloaded") and info.get("apk_path"). -/
def isSubmitted (i : Info) : Bool := i.downloaded && i.apk_path.isSome

/-- decompile_worker (src/unnamed/part_000 lines 327-336) given the result
of decompile_and_extract_manifest: record the manifest path, or append the
decompile_failed marker to the note. -/
def decompile_worker (manifest : Option String) (i : Info) : Info :=
  match manifest with
  | some m => { i with manifest_path := some m }
  | none => { i with note := i.note ++ " | decompile_failed" }

/-- The entry main appends for a stage-2 future (lines 467-476): the
decompile worker's updated info, or a fresh record carrying the exception
text (note that this replacement record drops apk_path and file_type). -/
def stage2Info (dbeh : String → DecompRes) (i : Info) : Info :=
  match dbeh i.package with
  | .ok m => decompile_worker m i
  | .exc e => { blankInfo i.package with
      downloaded := true
      note := "decompile exception: " ++ e }

/-- One insertion into the package-keyed Python dict info_map (lines
477-479): overwrite in place when the key exists, else append. -/
def updList (m : List Info) (d : Info) : List Info :=
  if m.any (fun i => i.package == d.package) then
    m.map (fun i => if i.package = d.package then d else i)
  else m ++ [d]

/-- Observable scheduling events of a run: a stage-1 future completing for
a package, and a stage-2 work item being submitted for a package. -/
inductive Ev where
  | download (p : String)
  | decompSubmit (p : String)
deriving DecidableEq, Repr

/-- The decompile stage plus final merge of main (lines 456-480): the
decompile_results list is the non-submitted stage-1 entries (in stage-1
result order) followed by the completed stage-2 entries (in completion
order order2), and it is folded last-writer-wins into the package-keyed
info_map initialised from the stage-1 results. -/
def mainStage2 (dbeh : String → DecompRes) (dl : List Info)
    (order2 : List Info) : List Info :=
  ((dl.filter (fun i => !(isSubmitted i))) ++
    order2.map (stage2Info dbeh)).foldl updList dl

/-- The orchestration of main (src/unnamed/part_000 lines 443-482) over
the already-extracted package list: the first pool drains completely into
download_results (completion order order1, an arbitrary permutation of the
package list), then the second pool is fed the downloaded-with-artifact
subset (completion order order2, an arbitrary permutation of the stage-2
results of that subset), non-submitted entries passing straight through;
the results are merged last-writer-wins into the package-keyed info_map
whose values are the final result list.  With skip = true (the
--skip-decompile flag) the second pool never runs and the stage-1 results
are final.  The event trace records stage-1 completions and stage-2
submissions. -/
def mainRun (wres : String → WorkerRes) (dbeh : String → DecompRes)
    (order1 : List String) (order2 : List Info) :
    Bool → List Info × List Ev
  | true => (order1.map (stage1Info wres), order1.map Ev.download)
  | false =>
    (mainStage2 dbeh (order1.map (stage1Info wres)) order2,
     order1.map Ev.download ++
       ((order1.map (stage1Info wres)).filter isSubmitted).map
         (fun i => Ev.decompSubmit i.package))

/-- The final outcome a single package receives, as a function of its own
oracles alone: its stage-1 record, pushed through stage 2 exactly when it
was downloaded with an artifact and the flag does not skip extraction. -/
def perIdInfo (wres : String → WorkerRes) (dbeh : String → DecompRes)
    (skip : Bool) (p : String) : Info :=
  let i := stage1Info wres p
  if skip then i else if isSubmitted i then stage2Info dbeh i else i

/-- Lookup in a result list by package key (first match). -/
def findPkg : List Info → String → Option Info
  | [], _ => none
  | i :: t, p => if i.package = p then some i else findPkg t p

lemma stage1Info_package (wres : String → WorkerRes)
    (hpkg : ∀ q i, wres q = WorkerRes.ok i → i.package = q) (p : String) :
    (stage1Info wres p).package = p := by
  unfold stage1Info
  cases h : wres p with
  | ok i => exact hpkg p i h
  | exc m => rfl

lemma stage2Info_package (dbeh : String → DecompRes) (i : Info) :
    (stage2Info dbeh i).package = i.package := by
  unfold stage2Info decompile_worker
  cases dbeh i.package with
  | ok m => cases m <;> rfl
  | exc e => rfl

lemma map_key_replace (m : List Info) (d : Info) :
    ((m.map (fun i => if i.package = d.package then d else i)).map
      (fun i => i.package)) = m.map (fun i => i.package) := by
  induction m with
  | nil => rfl
  | cons e t ih =>
    by_cases h : e.package = d.package
    · simp only [List.map_cons, if_pos h]
      rw [ih, h]
    · simp only [List.map_cons, if_neg h]
      rw [ih]

lemma updList_keys (m : List Info) (d : Info)
    (h : d.package ∈ m.map (fun i => i.package)) :
    (updList m d).map (fun i => i.package) = m.map (fun i => i.package) := by
  have hany : m.any (fun i => i.package == d.package) = true := by
    rw [List.any_eq_true]
    obtain ⟨i, hi, hip⟩ := List.mem_map.mp h
    exact ⟨i, hi, by simp [hip]⟩
  rw [updList, if_pos hany]
  exact map_key_replace m d

lemma find_key_replace (m : List Info) (d : Info)
    (h : d.package ∈ m.map (fun i => i.package)) :
    findPkg (m.map (fun i => if i.package = d.package then d else i))
      d.package = some d := by
  induction m with
  | nil => simp at h
  | cons e t ih =>
    by_cases he : e.package = d.package
    · simp [findPkg, he]
    · have ht : d.package ∈ t.map (fun i => i.package) := by
        rcases List.mem_map.mp h with ⟨x, hx, hxp⟩
        rcases List.mem_cons.mp hx with h1 | h1
        · exact absurd (h1 ▸ hxp) he
        · exact List.mem_map.mpr ⟨x, h1, hxp⟩
      simp [findPkg, he, ih ht]

lemma find_key_replace_ne (m : List Info) (d : Info) (p : String)
    (h : d.package ≠ p) :
    findPkg (m.map (fun i => if i.package = d.package then d else i)) p =
      findPkg m p := by
  induction m with
  | nil => rfl
  | cons e t ih =>
    by_cases he : e.package = d.package
    · have h2 : e.package ≠ p := by rw [he]; exact h
      simp [findPkg, he, h, h2, ih]
    · by_cases hep : e.package = p
      · simp [findPkg, he, hep, Ne.symm h]
      · simp [findPkg, he, hep, ih]

lemma findPkg_append_single (m : List Info) (d : Info) (p : String)
    (h : d.package ≠ p) : findPkg (m ++ [d]) p = findPkg m p := by
  induction m with
  | nil => simp [findPkg, h]
  | cons e t ih =>
    by_cases hep : e.package = p
    · simp [findPkg, hep]
    · simp [findPkg, hep, ih]

lemma updList_find_ne (m : List Info) (d : Info) (p : String)
    (h : d.package ≠ p) : findPkg (updList m d) p = findPkg m p := by
  rw [updList]
  by_cases hany : m.any (fun i => i.package == d.package) = true
  · rw [if_pos hany]; exact find_key_replace_ne m d p h
  · rw [if_neg hany]; exact findPkg_append_single m d p h

lemma updList_find_self (m : List Info) (d : Info)
    (h : d.package ∈ m.map (fun i => i.package)) :
    findPkg (updList m d) d.package = some d := by
  have hany : m.any (fun i => i.package == d.package) = true := by
    rw [List.any_eq_true]
    obtain ⟨i, hi, hip⟩ := List.mem_map.mp h
    exact ⟨i, hi, by simp [hip]⟩
  rw [updList, if_pos hany]
  exact find_key_replace m d h

lemma foldl_updList_keys (ds : List Info) :
    ∀ m : List Info,
      (∀ e ∈ ds, e.package ∈ m.map (fun i => i.package)) →
      (ds.foldl updList m).map (fun i => i.package) =
        m.map (fun i => i.package) := by
  induction ds with
  | nil => intro m _; rfl
  | cons d t ih =>
    intro m h
    have hd := h d (List.mem_cons_self d t)
    have hkeys := updList_keys m d hd
    rw [List.foldl_cons,
      ih (updList m d)
        (fun e he => by rw [hkeys]; exact h e (List.mem_cons_of_mem d he))]
    exact hkeys

lemma foldl_updList_find_none (ds : List Info) :
    ∀ m p, (∀ e ∈ ds, e.package ≠ p) →
      findPkg (ds.foldl updList m) p = findPkg m p := by
  induction ds with
  | nil => intro m p _; rfl
  | cons d t ih =>
    intro m p h
    rw [List.foldl_cons, ih _ p (fun e he => h e (List.mem_cons_of_mem d he)),
      updList_find_ne m d p (h d (List.mem_cons_self d t))]

lemma foldl_updList_find_singleton (ds : List Info) :
    ∀ (m : List Info) (d : Info) (p : String), d.package = p →
      (∀ e ∈ ds, e.package ∈ m.map (fun i => i.package)) →
      ds.filter (fun e => e.package == p) = [d] →
      findPkg (ds.foldl updList m) p = some d := by
  induction ds with
  | nil =>
    intro m d p _ _ hfilt
    simp at hfilt
  | cons e t ih =>
    intro m d p hdp hkeys hfilt
    by_cases hep : e.package = p
    · have hc : (fun x : Info => x.package == p) e = true := by simp [hep]
      rw [List.filter_cons, if_pos hc] at hfilt
      have he_d : e = d := (List.cons.injEq _ _ _ _ ▸ hfilt).1
      have hft : t.filter (fun x => x.package == p) = [] :=
        (List.cons.injEq _ _ _ _ ▸ hfilt).2
      have hnone : ∀ x ∈ t, x.package ≠ p := by
        intro x hx hxp
        have hmem : x ∈ t.filter (fun x => x.package == p) :=
          List.mem_filter.mpr ⟨hx, by simp [hxp]⟩
        rw [hft] at hmem
        simp at hmem
      rw [List.foldl_cons, foldl_updList_find_none t (updList m e) p hnone]
      subst he_d
      rw [← hdp]
      exact updList_find_self m e (hkeys e (List.mem_cons_self e t))
    · have hc : ¬ ((fun x : Info => x.package == p) e = true) := by simp [hep]
      rw [List.filter_cons, if_neg hc] at hfilt
      rw [List.foldl_cons]
      refine ih (updList m e) d p hdp ?_ hfilt
      intro x hx
      rw [updList_keys m e (hkeys e (List.mem_cons_self e t))]
      exact hkeys x (List.mem_cons_of_mem e hx)

lemma dl_keys (wres : String → WorkerRes)
    (hpkg : ∀ q i, wres q = WorkerRes.ok i → i.package = q)
    (order1 : List String) :
    (order1.map (stage1Info wres)).map (fun i => i.package) = order1 := by
  induction order1 with
  | nil => rfl
  | cons q t ih =>
    simp only [List.map_cons]
    rw [stage1Info_package wres hpkg q, ih]

lemma findPkg_dl (wres : String → WorkerRes)
    (hpkg : ∀ q i, wres q = WorkerRes.ok i → i.package = q)
    (l : List String) (p : String) (hp : p ∈ l) :
    findPkg (l.map (stage1Info wres)) p = some (stage1Info wres p) := by
  induction l with
  | nil => simp at hp
  | cons q t ih =>
    by_cases hqp : q = p
    · subst hqp
      simp [findPkg, List.map_cons, stage1Info_package wres hpkg q]
    · have hp2 : p ∈ t := by
        rcases List.mem_cons.mp hp with h | h
        · exact absurd h.symm hqp
        · exact h
      simp [findPkg, List.map_cons, stage1Info_package wres hpkg q, hqp,
        ih hp2]

lemma filter_key_and_dl_of_not_mem (wres : String → WorkerRes)
    (hpkg : ∀ q i, wres q = WorkerRes.ok i → i.package = q)
    (g : Info → Bool) (l : List String) (p : String) (hp : p ∉ l) :
    (l.map (stage1Info wres)).filter (fun i => (i.package == p) && g i)
      = [] := by
  induction l with
  | nil => rfl
  | cons q t ih =>
    have hqp : q ≠ p := fun h => hp (h ▸ List.mem_cons_self q t)
    have hp2 : p ∉ t := fun h => hp (List.mem_cons_of_mem q h)
    simp only [List.map_cons, List.filter_cons,
      stage1Info_package wres hpkg q]
    simp [hqp, ih hp2]

lemma filter_key_and_dl (wres : String → WorkerRes)
    (hpkg : ∀ q i, wres q = WorkerRes.ok i → i.package = q)
    (g : Info → Bool) (l : List String) (p : String)
    (hnd : l.Nodup) (hp : p ∈ l) :
    (l.map (stage1Info wres)).filter (fun i => (i.package == p) && g i)
      = if g (stage1Info wres p) then [stage1Info wres p] else [] := by
  induction l with
  | nil => simp at hp
  | cons q t ih =>
    rcases List.nodup_cons.mp hnd with ⟨hqt, hndt⟩
    by_cases hqp : q = p
    · subst hqp
      simp only [List.map_cons, List.filter_cons,
        stage1Info_package wres hpkg q]
      rw [filter_key_and_dl_of_not_mem wres hpkg g t q hqt]
      by_cases hg : g (stage1Info wres q) = true
      · simp [hg]
      · simp [hg]
    · have hp2 : p ∈ t := by
        rcases List.mem_cons.mp hp with h | h
        · exact absurd h.symm hqp
        · exact h
      simp only [List.map_cons, List.filter_cons,
        stage1Info_package wres hpkg q]
      simp only [beq_iff_eq, hqp, Bool.false_and, Bool.and_eq_true]
      simp [hqp, ih hndt hp2]

lemma filter_key_map_stage2 (dbeh : String → DecompRes) (l : List Info)
    (p : String) :
    (l.map (stage2Info dbeh)).filter (fun i => i.package == p)
      = (l.filter (fun i => i.package == p)).map (stage2Info dbeh) := by
  induction l with
  | nil => rfl
  | cons e t ih =>
    by_cases hep : e.package = p
    · simp [List.filter_cons, stage2Info_package, hep, ih]
    · simp [List.filter_cons, stage2Info_package, hep, ih]

lemma mainStage2_keys_mem (wres : String → WorkerRes)
    (dbeh : String → DecompRes)
    (order1 : List String) (order2 : List Info)
    (h2 : order2.Perm ((order1.map (stage1Info wres)).filter isSubmitted)) :
    ∀ e ∈ (((order1.map (stage1Info wres)).filter
        (fun i => !(isSubmitted i))) ++ order2.map (stage2Info dbeh)),
      e.package ∈ (order1.map (stage1Info wres)).map
        (fun i => i.package) := by
  intro e he
  rcases List.mem_append.mp he with h | h
  · exact List.mem_map.mpr ⟨e, List.mem_of_mem_filter h, rfl⟩
  · rcases List.mem_map.mp h with ⟨x, hx, rfl⟩
    rw [stage2Info_package]
    have hx2 : x ∈ (order1.map (stage1Info wres)).filter isSubmitted :=
      (h2.mem_iff).mp hx
    exact List.mem_map.mpr ⟨x, List.mem_of_mem_filter hx2, rfl⟩

/-- The final entry the merge of main assigns to a package is determined by
that package's own oracles alone: its stage-1 record, superseded by its
stage-2 record exactly when it was submitted to the decompile pool. -/
lemma mainRun_find (wres : String → WorkerRes) (dbeh : String → DecompRes)
    (order1 : List String) (order2 : List Info) (skip : Bool) (p : String)
    (hpkg : ∀ q i, wres q = WorkerRes.ok i → i.package = q)
    (hnd : order1.Nodup) (hp : p ∈ order1)
    (h2 : order2.Perm ((order1.map (stage1Info wres)).filter isSubmitted)) :
    findPkg (mainRun wres dbeh order1 order2 skip).1 p
      = some (perIdInfo wres dbeh skip p) := by
  cases skip with
  | true =>
    show findPkg (order1.map (stage1Info wres)) p
      = some (perIdInfo wres dbeh true p)
    rw [findPkg_dl wres hpkg order1 p hp]
    rfl
  | false =>
    show findPkg (mainStage2 dbeh (order1.map (stage1Info wres)) order2) p
      = some (perIdInfo wres dbeh false p)
    unfold mainStage2
    have hkeys := mainStage2_keys_mem wres dbeh order1 order2 h2
    by_cases hsub : isSubmitted (stage1Info wres p) = true
    · have h1 : ((order1.map (stage1Info wres)).filter
          (fun i => !(isSubmitted i))).filter (fun e => e.package == p)
          = [] := by
        rw [List.filter_filter, filter_key_and_dl wres hpkg _ order1 p hnd hp]
        simp [hsub]
      have hsubs : ((order1.map (stage1Info wres)).filter
          isSubmitted).filter (fun i => i.package == p)
          = [stage1Info wres p] := by
        rw [List.filter_filter, filter_key_and_dl wres hpkg _ order1 p hnd hp]
        simp [hsub]
      have h2p : (order2.map (stage2Info dbeh)).filter
          (fun e => e.package == p)
          = [stage2Info dbeh (stage1Info wres p)] := by
        rw [filter_key_map_stage2]
        have hperm := h2.filter (fun i => i.package == p)
        rw [hsubs] at hperm
        rw [List.perm_singleton.mp hperm]
        rfl
      have hfilt : (((order1.map (stage1Info wres)).filter
            (fun i => !(isSubmitted i))) ++
            order2.map (stage2Info dbeh)).filter (fun e => e.package == p)
          = [stage2Info dbeh (stage1Info wres p)] := by
        rw [List.filter_append, h1, h2p]
        rfl
      rw [foldl_updList_find_singleton _ _ _ p
        (by rw [stage2Info_package, stage1Info_package wres hpkg])
        hkeys hfilt]
      unfold perIdInfo
      simp [hsub]
    · have h1 : ((order1.map (stage1Info wres)).filter
          (fun i => !(isSubmitted i))).filter (fun e => e.package == p)
          = [stage1Info wres p] := by
        rw [List.filter_filter, filter_key_and_dl wres hpkg _ order1 p hnd hp]
        simp [hsub]
      have hsubs : ((order1.map (stage1Info wres)).filter
          isSubmitted).filter (fun i => i.package == p) = [] := by
        rw [List.filter_filter, filter_key_and_dl wres hpkg _ order1 p hnd hp]
        simp [hsub]
      have h2p : (order2.map (stage2Info dbeh)).filter
          (fun e => e.package == p) = [] := by
        rw [filter_key_map_stage2]
        have hperm := h2.filter (fun i => i.package == p)
        rw [hsubs] at hperm
        rw [List.perm_nil.mp hperm]
        rfl
      have hfilt : (((order1.map (stage1Info wres)).filter
            (fun i => !(isSubmitted i))) ++
            order2.map (stage2Info dbeh)).filter (fun e => e.package == p)
          = [stage1Info wres p] := by
        rw [List.filter_append, h1, h2p, List.append_nil]
      rw [foldl_updList_find_singleton _ _ _ p
        (stage1Info_package wres hpkg p) hkeys hfilt]
      unfold perIdInfo
      simp [hsub]

/-- The key list of the final result list equals the stage-1 completion
order, whatever the oracles did. -/
lemma mainRun_keys (wres : String → WorkerRes) (dbeh : String → DecompRes)
    (order1 : List String) (order2 : List Info) (skip : Bool)
    (hpkg : ∀ q i, wres q = WorkerRes.ok i → i.package = q)
    (h2 : order2.Perm ((order1.map (stage1Info wres)).filter isSubmitted)) :
    (mainRun wres dbeh order1 order2 skip).1.map (fun i => i.package)
      = order1 := by
  cases skip with
  | true =>
    show (order1.map (stage1Info wres)).map (fun i => i.package) = order1
    exact dl_keys wres hpkg order1
  | false =>
    show (mainStage2 dbeh (order1.map (stage1Info wres)) order2).map
      (fun i => i.package) = order1
    unfold mainStage2
    rw [foldl_updList_keys _ _
      (mainStage2_keys_mem wres dbeh order1 order2 h2)]
    exact dl_keys wres hpkg order1

/-- C4 counterexample: the value safe_request returns after exhausting its
retries is the bare sentinel None: two always-failing runs whose underlying
errors differ return identical values, so the returned value carries
neither the last error nor the attempt count, contrary to the claim that a
typed Failure carrying both is returned. -/
theorem safe_request_failure_value_cex :
    (safe_request (fun _ => Except.error "connection reset") 5 2).response
        = none ∧
    safe_request (fun _ => Except.error "connection reset") 5 2
      = safe_request (fun _ => Except.error "http 503") 5 2 := by
  exact ⟨rfl, rfl⟩

/-- C4 (amended): a requester whose underlying request fails on every
attempt makes exactly the configured number of attempts (default bound 5)
and then returns the failure sentinel None -- which carries no error or
attempt information -- rather than raising; no response is ever returned in
this case. -/
theorem safe_request_exhausts_retries (req : Nat → Except String Nat)
    (retries backoff : Nat) (hr : 1 ≤ retries)
    (hfail : ∀ k, ∃ e, req k = Except.error e) :
    (safe_request req retries backoff).response = none ∧
    (safe_request req retries backoff).attempts = retries := by
  have h := safe_request_go_all_fail req backoff hfail retries 1 0 hr
  refine ⟨h.1, ?_⟩
  show (safe_request_go req backoff 1 0 retries).attempts = retries
  rw [h.2]
  omega

theorem safe_request_exhausts_retries_witness :
    (safe_request (fun _ => Except.error "connection error") 5 2).response
        = none ∧
    (safe_request (fun _ => Except.error "connection error") 5 2).attempts
        = 5 :=
  safe_request_exhausts_retries _ 5 2 (by omega)
    (fun _ => ⟨"connection error", rfl⟩)

/-- C5: if the underlying request fails on attempts 1 through N-1 and
succeeds on attempt N, with N within the retry bound, safe_request returns
that response and the total time slept beforehand is the sum over k in
1..N-1 of backoff ^ (k-1) (written with the index shifted to j = k-1, so
with the default base 2 the successive delays are 1, 2, 4, ...). -/
theorem safe_request_backoff_sum (req : Nat → Except String Nat)
    (retries backoff N v : Nat) (h1 : 1 ≤ N) (h2 : N ≤ retries)
    (hfail : ∀ k, 1 ≤ k → k < N → ∃ e, req k = Except.error e)
    (hok : req N = Except.ok v) :
    (safe_request req retries backoff).response = some v ∧
    (safe_request req retries backoff).slept
      = Finset.sum (Finset.range (N - 1)) (fun j => backoff ^ j) := by
  have hN : 1 + (N - 1) = N := by omega
  have hgo := safe_request_go_succeeds req backoff v (N - 1) 1 0 retries
    (by omega) (by omega)
    (fun k hk1 hk2 => hfail k hk1 (by omega))
    (by rw [hN]; exact hok)
  rw [safe_request, hgo]
  refine ⟨rfl, ?_⟩
  show 0 + Finset.sum (Finset.range (N - 1)) (fun j => backoff ^ (1 - 1 + j))
    = Finset.sum (Finset.range (N - 1)) (fun j => backoff ^ j)
  simp

theorem safe_request_backoff_sum_witness :
    (safe_request (fun k => if k < 3 then Except.error "timeout"
        else Except.ok 200) 5 2).response = some 200 ∧
    (safe_request (fun k => if k < 3 then Except.error "timeout"
        else Except.ok 200) 5 2).slept
      = Finset.sum (Finset.range 2) (fun j => 2 ^ j) :=
  safe_request_backoff_sum _ 5 2 3 200 (by omega) (by omega)
    (fun k _ hk2 => ⟨"timeout", by simp [hk2]⟩)
    (by norm_num)

/-- C7: for an openable container with at least one entry matching *.apk,
extract_xapk stages the archive into the scoped staging subdirectory and
returns the first matching entry in the archive's own entry order (find?
over the entry list, no sorting); for zero matching entries it returns
(none, staging dir) -- "empty of targets" -- and for an unreadable
container it returns (none, none), which is distinguishable from the
empty-of-targets result. -/
theorem extract_xapk_first_match (entries : List (String × Nat))
    (xapk_path outdir : String) (fs : FS) (e : String × Nat)
    (hfind : entries.find? (fun en => isApkName en.1) = some e) :
    ((extract_xapk (Container.archive entries) xapk_path outdir fs).1
        = some (stagingDir xapk_path outdir ++ "/" ++ e.1) ∧
      (extract_xapk (Container.archive entries) xapk_path outdir fs).2.1
        = some (stagingDir xapk_path outdir)) ∧
    (∀ (es : List (String × Nat)) (xp od : String) (fs2 : FS),
      es.find? (fun en => isApkName en.1) = none →
      (extract_xapk (Container.archive es) xp od fs2).1 = none ∧
      (extract_xapk (Container.archive es) xp od fs2).2.1
        = some (stagingDir xp od)) ∧
    (∀ (xp od : String) (fs2 : FS),
      (extract_xapk Container.corrupt xp od fs2).1 = none ∧
      (extract_xapk Container.corrupt xp od fs2).2.1 = none) ∧
    (∀ td : String, (some td : Option String) ≠ none) := by
  refine ⟨?_, ?_, ?_, ?_⟩
  · constructor <;> simp [extract_xapk, hfind]
  · intro es xp od fs2 hnone
    constructor <;> simp [extract_xapk, hnone]
  · intro xp od fs2
    exact ⟨rfl, rfl⟩
  · intro td
    simp

theorem extract_xapk_first_match_witness :
    (extract_xapk (Container.archive
        [("base/readme.txt", 5), ("base/a.apk", 10), ("b.apk", 7)])
        "out/com.x.xapk" "out" []).1
      = some (stagingDir "out/com.x.xapk" "out" ++ "/" ++ "base/a.apk") :=
  ((extract_xapk_first_match
    [("base/readme.txt", 5), ("base/a.apk", 10), ("b.apk", 7)]
    "out/com.x.xapk" "out" [] ("base/a.apk", 10) (by decide)).1).1

/-- C10: when the streamed-body write fails partway through,
download_from_app_page deletes the partially written destination file
before returning its download-failure result (saved path None), so no
non-empty partial file remains for a later run's skip-if-present check to
accept. -/
theorem partial_download_deleted (pg : Page) (host app_page outdir : String)
    (fs : FS) (du : String) (sz : Nat)
    (hdu : pg.data_url = some du)
    (habsent : fsLookup fs (destPath pg host outdir) = none) :
    (download_from_app_page (some pg) host
        (some (WriteOutcome.failPartial sz)) app_page outdir fs).saved
      = none ∧
    fsLookup (download_from_app_page (some pg) host
        (some (WriteOutcome.failPartial sz)) app_page outdir fs).fs
        (destPath pg host outdir) = none := by
  constructor
  · simp [download_from_app_page, hdu, habsent]
  · simp [download_from_app_page, hdu, habsent, fsLookup_erase_self]

theorem partial_download_deleted_witness :
    (download_from_app_page (some ⟨some "apk", some "com.x", some "d1"⟩)
        "h" (some (WriteOutcome.failPartial 37)) "https://x" "out" []).saved
      = none ∧
    fsLookup (download_from_app_page
        (some ⟨some "apk", some "com.x", some "d1"⟩) "h"
        (some (WriteOutcome.failPartial 37)) "https://x" "out" []).fs
        (destPath ⟨some "apk", some "com.x", some "d1"⟩ "h" "out")
      = none :=
  partial_download_deleted ⟨some "apk", some "com.x", some "d1"⟩ "h"
    "https://x" "out" [] "d1" 37 rfl rfl

/-- When the destination file already exists with positive size the call
returns the existing path without issuing the body request, leaving the
filesystem untouched; the only request issued is the download page. -/
lemma download_skip_of_present (pg : Page) (host : String)
    (body : Option WriteOutcome) (app_page outdir : String) (fs : FS)
    (du : String) (sz : Nat) (hdu : pg.data_url = some du)
    (hsz : fsLookup fs (destPath pg host outdir) = some sz)
    (hpos : 0 < sz) :
    download_from_app_page (some pg) host body app_page outdir fs
      = ⟨some (pg.pkg_name.getD host), some (destPath pg host outdir),
         some (pageExt pg), fs, [app_page ++ "/download"]⟩ := by
  have hif : 0 < (fsLookup fs (destPath pg host outdir)).getD 0 := by
    rw [hsz]
    simpa using hpos
  simp [download_from_app_page, hdu, hif]

/-- A fresh download over an absent destination with a complete streamed
body writes the file and reports both requests. -/
lemma download_fresh_complete (pg : Page) (host app_page outdir : String)
    (fs : FS) (du : String) (sz : Nat) (hdu : pg.data_url = some du)
    (habsent : fsLookup fs (destPath pg host outdir) = none) :
    download_from_app_page (some pg) host (some (WriteOutcome.complete sz))
        app_page outdir fs
      = ⟨some (pg.pkg_name.getD host), some (destPath pg host outdir),
         some (pageExt pg), fsWrite fs (destPath pg host outdir) sz,
         [app_page ++ "/download", finalUrl pg host du]⟩ := by
  simp [download_from_app_page, hdu, habsent]

/-- Concrete download page for the C6 counterexample. -/
def pgC : Page := ⟨some "apk", some "com.x", some "d1"⟩

/-- C6 counterexample: with the destination file already present (size 100)
the call still issues the download-page network request for that identifier
-- so a second run does re-invoke the network, contrary to the claim -- and
the (saved, ext) pair it returns is identical to the pair returned by a
fresh successful download over an empty directory, so the outcome carries
no distinct AlreadyPresent marking. -/
theorem skip_existing_network_cex :
    (download_from_app_page (some pgC) "host" none "https://app.x/android"
        "out" [("out/com.x.apk", 100)]).requests
      = ["https://app.x/android/download"] ∧
    (download_from_app_page (some pgC) "host" none "https://app.x/android"
        "out" [("out/com.x.apk", 100)]).requests ≠ [] ∧
    ((download_from_app_page (some pgC) "host" none "https://app.x/android"
        "out" [("out/com.x.apk", 100)]).saved,
      (download_from_app_page (some pgC) "host" none "https://app.x/android"
        "out" [("out/com.x.apk", 100)]).ext)
      = ((download_from_app_page (some pgC) "host"
            (some (WriteOutcome.complete 100)) "https://app.x/android"
            "out" []).saved,
          (download_from_app_page (some pgC) "host"
            (some (WriteOutcome.complete 100)) "https://app.x/android"
            "out" []).ext) := by
  refine ⟨by decide, by decide, by decide⟩

/-- C6 (amended): if the file at the canonical destination path already
exists with non-zero size, the fetch skips the file-body download -- the
only network request issued by the call is the download page itself -- and
returns the existing path as an ordinary success, with the filesystem
untouched; consequently, re-running the download after a successful run
over the same output directory skips the body download for that identifier
while still issuing the download-page request.  (The code marks nothing
AlreadyPresent beyond a log line: the returned outcome is identical in
shape to a fresh success.) -/
theorem skip_existing_amended :
    (∀ (pg : Page) (host : String) (body : Option WriteOutcome)
        (app_page outdir : String) (fs : FS) (du : String) (sz : Nat),
      pg.data_url = some du →
      fsLookup fs (destPath pg host outdir) = some sz → 0 < sz →
      (download_from_app_page (some pg) host body app_page outdir fs).saved
          = some (destPath pg host outdir) ∧
      (download_from_app_page (some pg) host body app_page outdir fs).fs
          = fs ∧
      (download_from_app_page (some pg) host body app_page
          outdir fs).requests
          = [app_page ++ "/download"]) ∧
    (∀ (pg : Page) (host app_page outdir : String) (fs : FS) (du : String)
        (sz : Nat) (body2 : Option WriteOutcome),
      pg.data_url = some du →
      fsLookup fs (destPath pg host outdir) = none → 0 < sz →
      (download_from_app_page (some pg) host body2 app_page outdir
          (download_from_app_page (some pg) host
            (some (WriteOutcome.complete sz)) app_page outdir fs).fs).saved
        = (download_from_app_page (some pg) host
            (some (WriteOutcome.complete sz)) app_page outdir fs).saved ∧
      (download_from_app_page (some pg) host body2 app_page outdir
          (download_from_app_page (some pg) host
            (some (WriteOutcome.complete sz)) app_page outdir
            fs).fs).requests
        = [app_page ++ "/download"]) := by
  constructor
  · intro pg host body app_page outdir fs du sz hdu hsz hpos
    rw [download_skip_of_present pg host body app_page outdir fs du sz hdu
      hsz hpos]
    exact ⟨rfl, rfl, rfl⟩
  · intro pg host app_page outdir fs du sz body2 hdu habsent hpos
    rw [download_fresh_complete pg host app_page outdir fs du sz hdu habsent]
    rw [download_skip_of_present pg host body2 app_page outdir
      (fsWrite fs (destPath pg host outdir) sz) du sz hdu
      (fsLookup_write_self fs (destPath pg host outdir) sz) hpos]
    exact ⟨rfl, rfl⟩

theorem skip_existing_amended_witness :
    (download_from_app_page (some pgC) "host" none "https://app.x/android"
        "out" [("out/com.x.apk", 100)]).saved
      = some (destPath pgC "host" "out") ∧
    (download_from_app_page (some pgC) "host" none "https://app.x/android"
        "out" [("out/com.x.apk", 100)]).fs = [("out/com.x.apk", 100)] ∧
    (download_from_app_page (some pgC) "host" none "https://app.x/android"
        "out" [("out/com.x.apk", 100)]).requests
      = ["https://app.x/android" ++ "/download"] :=
  skip_existing_amended.1 pgC "host" none "https://app.x/android" "out"
    [("out/com.x.apk", 100)] "d1" 100 rfl (by decide) (by decide)

/-- The filesystem component of extract_xapk on an openable archive is the
materialized staging tree, whatever the apk search found. -/
lemma extract_xapk_fs_archive (entries : List (String × Nat))
    (xp od : String) (fs2 : FS) :
    (extract_xapk (Container.archive entries) xp od fs2).2.2
      = entries.foldl (fun acc e =>
          fsWrite acc (stagingDir xp od ++ "/" ++ e.1) e.2) fs2 := by
  unfold extract_xapk
  cases hf : entries.find? (fun e => isApkName e.1) with
  | none => simp [hf]
  | some e => simp [hf]

lemma foldl_fsWrite_preserves (entries : List (String × Nat)) :
    ∀ (fs2 : FS) (q base : String), fsLookup fs2 q ≠ none →
      fsLookup (entries.foldl (fun acc e =>
        fsWrite acc (base ++ "/" ++ e.1) e.2) fs2) q ≠ none := by
  induction entries with
  | nil => intro fs2 q base h; exact h
  | cons e t ih =>
    intro fs2 q base h
    rw [List.foldl_cons]
    exact ih _ q base (fsLookup_write_isSome _ _ _ _ h)

/-- C8: when the fetch stage produced an xapk container, the orchestrating
worker deletes the container file after normalization reaches its outcome,
whether or not an inner apk was found; and the normalizer extract_xapk
itself never removes any existing file, so the deletion is the worker's. -/
theorem container_deleted_by_worker (pkg : String) (env : WorkerEnv)
    (outdir ap saved : String) (fs : FS)
    (hap : env.app_page = some ap)
    (hsaved : (download_from_app_page env.page env.host env.body ap outdir
        fs).saved = some saved)
    (hext : (download_from_app_page env.page env.host env.body ap outdir
        fs).ext = some "xapk") :
    fsLookup (download_worker pkg env outdir fs).2 saved = none ∧
    (∀ (c : Container) (xp od : String) (fs2 : FS) (q : String),
      fsLookup fs2 q ≠ none →
      fsLookup (extract_xapk c xp od fs2).2.2 q ≠ none) := by
  constructor
  · have hw : download_worker pkg env outdir fs
        = worker_after_download pkg env.container outdir
            (download_from_app_page env.page env.host env.body ap
              outdir fs) := by
      unfold download_worker
      rw [hap]
    rw [hw]
    unfold worker_after_download
    rw [hsaved, hext]
    simp only [if_pos rfl]
    rcases hx : extract_xapk env.container saved outdir
        (download_from_app_page env.page env.host env.body ap outdir fs).fs
      with ⟨inner, td, fs2⟩
    cases inner with
    | none =>
      cases td with
      | some t =>
        simp only []
        exact fsLookup_removeTree_none _ t saved
          (fsLookup_erase_self fs2 saved)
      | none =>
        simp only []
        exact fsLookup_erase_self fs2 saved
    | some ia =>
      simp only []
      exact fsLookup_erase_self fs2 saved
  · intro c xp od fs2 q hq
    cases c with
    | corrupt => exact hq
    | archive entries =>
      rw [extract_xapk_fs_archive]
      exact foldl_fsWrite_preserves entries fs2 q (stagingDir xp od) hq

/-- Concrete worker environment for the C8 witness: an xapk download whose
container holds one inner apk. -/
def envW : WorkerEnv :=
  { app_page := some "https://x.en.uptodown.com/android"
    page := some ⟨some "xapk", some "com.x", some "d1"⟩
    host := "x"
    body := some (WriteOutcome.complete 50)
    container := Container.archive [("a.apk", 10)] }

theorem container_deleted_by_worker_witness :
    fsLookup (download_worker "com.x" envW "out" []).2 "out/com.x.xapk"
      = none :=
  (container_deleted_by_worker "com.x" envW "out"
    "https://x.en.uptodown.com/android" "out/com.x.xapk" [] rfl (by decide)
    (by decide)).1

/-- C1: the key list of the final result list handed to the report is a
permutation of the deduplicated input identifier list, which is itself
duplicate-free -- so every distinct input identifier appears in the final
results exactly once, no matter which stages failed for it, for every
completion schedule of either pool. -/
theorem final_results_keys_exact (raw : List String)
    (wres : String → WorkerRes) (dbeh : String → DecompRes)
    (order1 : List String) (order2 : List Info) (skip : Bool)
    (hpkg : ∀ q i, wres q = WorkerRes.ok i → i.package = q)
    (h1 : order1.Perm (extract_packages raw))
    (h2 : order2.Perm ((order1.map (stage1Info wres)).filter isSubmitted)) :
    ((mainRun wres dbeh order1 order2 skip).1.map
        (fun i => i.package)).Perm (extract_packages raw) ∧
    (extract_packages raw).Nodup := by
  constructor
  · rw [mainRun_keys wres dbeh order1 order2 skip hpkg h2]
    exact h1
  · unfold extract_packages
    exact List.nodup_dedup raw

/-- Stage-1 record used by the orchestration witnesses: package b
downloads successfully with an artifact. -/
def infoB1 : Info :=
  { package := "b", downloaded := true, file_type := some "apk",
    apk_path := some "out/b.apk", manifest_path := none, note := "",
    temp_extract_dir := none }

/-- Worker oracle used by the orchestration witnesses: package b succeeds,
every other unit of work raises. -/
def wresW1 : String → WorkerRes := fun q =>
  if q = "b" then WorkerRes.ok infoB1 else WorkerRes.exc "boom"

theorem final_results_keys_exact_witness :
    ((mainRun wresW1 (fun _ => DecompRes.ok (some "m.xml")) ["b", "a"]
        [infoB1] false).1.map (fun i => i.package)).Perm
      (extract_packages ["a", "b", "a"]) ∧
    (extract_packages ["a", "b", "a"]).Nodup :=
  final_results_keys_exact ["a", "b", "a"] wresW1
    (fun _ => DecompRes.ok (some "m.xml")) ["b", "a"] [infoB1] false
    (by
      intro q i h
      unfold wresW1 at h
      by_cases hq : q = "b"
      · rw [if_pos hq] at h
        cases h
        rw [hq]
        rfl
      · rw [if_neg hq] at h
        cases h)
    (by decide) (by decide)

/-- C2: for every oracle behaviour and every completion schedule of both
pools, the event trace of a run is the complete list of stage-1 download
completions followed only by stage-2 submissions: no decompile work item
is submitted before the download pool has fully drained. -/
theorem stages_not_interleaved (wres : String → WorkerRes)
    (dbeh : String → DecompRes) (order1 : List String) (order2 : List Info)
    (skip : Bool) :
    ∃ t2, (mainRun wres dbeh order1 order2 skip).2
        = order1.map Ev.download ++ t2 ∧
      ∀ e ∈ t2, ∃ q, e = Ev.decompSubmit q := by
  cases skip with
  | true => exact ⟨[], by simp [mainRun], by simp⟩
  | false =>
    refine ⟨_, rfl, ?_⟩
    intro e he
    rcases List.mem_map.mp he with ⟨i, _, rfl⟩
    exact ⟨i.package, rfl⟩

/-- C3: an exception in one identifier's unit of work is caught at the
fut.result() boundary and converted into a terminal record with
downloaded = False and the human-readable note "exception: <msg>"; and
every sibling identifier's final entry is the same as in a run whose
worker oracle differs only at the failing identifier -- sibling outcomes
depend only on their own oracles, so the failure cannot prevent their
completion. -/
theorem failure_isolation (raw : List String)
    (wres wres2 : String → WorkerRes) (dbeh : String → DecompRes)
    (order1 order1b : List String) (order2 order2b : List Info)
    (skip : Bool) (p msg : String)
    (hpkg : ∀ q i, wres q = WorkerRes.ok i → i.package = q)
    (hpkg2 : ∀ q i, wres2 q = WorkerRes.ok i → i.package = q)
    (h1 : order1.Perm (extract_packages raw))
    (h1b : order1b.Perm (extract_packages raw))
    (h2 : order2.Perm ((order1.map (stage1Info wres)).filter isSubmitted))
    (h2b : order2b.Perm
      ((order1b.map (stage1Info wres2)).filter isSubmitted))
    (hfail : wres p = WorkerRes.exc msg)
    (hp : p ∈ extract_packages raw)
    (hagree : ∀ q, q ≠ p → wres2 q = wres q) :
    findPkg (mainRun wres dbeh order1 order2 skip).1 p
        = some { blankInfo p with note := "exception: " ++ msg } ∧
    ∀ q ∈ extract_packages raw, q ≠ p →
      findPkg (mainRun wres dbeh order1 order2 skip).1 q
        = findPkg (mainRun wres2 dbeh order1b order2b skip).1 q := by
  have hdedup : (extract_packages raw).Nodup := by
    unfold extract_packages
    exact List.nodup_dedup raw
  have hnd : order1.Nodup := (h1.nodup_iff).mpr hdedup
  have hndb : order1b.Nodup := (h1b.nodup_iff).mpr hdedup
  constructor
  · rw [mainRun_find wres dbeh order1 order2 skip p hpkg hnd
      (h1.mem_iff.mpr hp) h2]
    have hs : stage1Info wres p
        = { blankInfo p with note := "exception: " ++ msg } := by
      unfold stage1Info
      rw [hfail]
    unfold perIdInfo
    rw [hs]
    cases skip <;> rfl
  · intro q hq hqp
    rw [mainRun_find wres dbeh order1 order2 skip q hpkg hnd
        (h1.mem_iff.mpr hq) h2,
      mainRun_find wres2 dbeh order1b order2b skip q hpkg2 hndb
        (h1b.mem_iff.mpr hq) h2b]
    have hs : stage1Info wres2 q = stage1Info wres q := by
      unfold stage1Info
      rw [hagree q hqp]
    unfold perIdInfo
    rw [hs]

theorem failure_isolation_witness :
    findPkg (mainRun wresW1 (fun _ => DecompRes.ok (some "m.xml"))
        ["b", "a"] [infoB1] false).1 "a"
      = some { blankInfo "a" with note := "exception: " ++ "boom" } :=
  (failure_isolation ["a", "b", "a"] wresW1 wresW1
    (fun _ => DecompRes.ok (some "m.xml")) ["b", "a"] ["b", "a"]
    [infoB1] [infoB1] false "a" "boom"
    (by
      intro q i h
      unfold wresW1 at h
      by_cases hq : q = "b"
      · rw [if_pos hq] at h
        cases h
        rw [hq]
        rfl
      · rw [if_neg hq] at h
        cases h)
    (by
      intro q i h
      unfold wresW1 at h
      by_cases hq : q = "b"
      · rw [if_pos hq] at h
        cases h
        rw [hq]
        rfl
      · rw [if_neg hq] at h
        cases h)
    (by decide) (by decide) (by decide) (by decide) (by decide) (by decide)
    (fun q _ => rfl)).1

/-- C9: with the skip-extraction flag set the orchestrator runs only the
fetch stage -- the event trace contains no decompile submission, being
exactly the stage-1 completions -- and every final record's extraction
field manifest_path holds the absent value None, the representation the
report gives a skipped extraction. -/
theorem skip_decompile_fetch_only (wres : String → WorkerRes)
    (dbeh : String → DecompRes) (order1 : List String) (order2 : List Info)
    (hman : ∀ q i, wres q = WorkerRes.ok i → i.manifest_path = none) :
    (mainRun wres dbeh order1 order2 true).2 = order1.map Ev.download ∧
    ∀ i ∈ (mainRun wres dbeh order1 order2 true).1,
      i.manifest_path = none := by
  constructor
  · rfl
  · intro i hi
    rcases List.mem_map.mp hi with ⟨q, _, rfl⟩
    unfold stage1Info
    cases h : wres q with
    | ok j => exact hman q j h
    | exc m => rfl

theorem skip_decompile_fetch_only_witness :
    (mainRun (fun _ => WorkerRes.exc "boom")
        (fun _ => DecompRes.ok none) ["a", "b"] [] true).2
      = ["a", "b"].map Ev.download ∧
    ∀ i ∈ (mainRun (fun _ => WorkerRes.exc "boom")
        (fun _ => DecompRes.ok none) ["a", "b"] [] true).1,
      i.manifest_path = none :=
  skip_decompile_fetch_only (fun _ => WorkerRes.exc "boom")
    (fun _ => DecompRes.ok none) ["a", "b"] []
    (fun _ _ h => WorkerRes.noConfusion h)

end Uptodown
